import Mathlib

/-!
Verification of the blend2d pixel converter core (`pixelconverter_p.h`).

Byte-addressed memory is modelled as a total function from integer
addresses to byte values; strides are integers (they may be negative for
bottom-up bitmaps), widths and heights are naturals.
-/

set_option maxHeartbeats 1000000

namespace Blend2D

/-- Byte-addressed memory: a total map from integer addresses to bytes. -/
def Mem : Type := Int → Nat

/-- Store one byte at one address. -/
def memWrite (m : Mem) (a : Int) (v : Nat) : Mem :=
  fun x => if x = a then v else m x

/-- Embedding of `blPixelConverterFillGap` (pixelconverter_p.h lines
246-251): writes the byte 0 to `size` consecutive addresses starting at
`data` and returns the final pointer.  The loop takes no fill value: the
constant 0 is hard-coded in the source. -/
def blPixelConverterFillGap : Mem → Int → Nat → Mem × Int
  | m, data, 0 => (m, data)
  | m, data, Nat.succ n => blPixelConverterFillGap (memWrite m data 0) (data + 1) n

/-- Runtime CPU feature flags consumed by the converter (the x86 tiers for
which kernels are declared in pixelconverter_p.h: SSE2, SSSE3, AVX2). -/
structure BLRuntimeCpuFeatures where
  sse2 : Bool
  ssse3 : Bool
  avx2 : Bool
deriving DecidableEq, Repr

/-- Capability requirement `a` is satisfied by detected capability set `b`. -/
def capSubset (a b : BLRuntimeCpuFeatures) : Bool :=
  (!a.sse2 || b.sse2) && (!a.ssse3 || b.ssse3) && (!a.avx2 || b.avx2)

/-- The empty capability requirement (baseline C++ kernels). -/
def noCaps : BLRuntimeCpuFeatures := ⟨false, false, false⟩

/-- SSE2 requirement. -/
def sse2Caps : BLRuntimeCpuFeatures := ⟨true, false, false⟩

/-- SSSE3 requirement (implies SSE2). -/
def ssse3Caps : BLRuntimeCpuFeatures := ⟨true, true, false⟩

/-- AVX2 requirement (implies SSSE3 and SSE2). -/
def avx2Caps : BLRuntimeCpuFeatures := ⟨true, true, true⟩

/-- Identifiers of the conversion kernels declared in pixelconverter_p.h
lines 286-324, one constructor per declared function, plus the baseline
kernels the spec describes that live in the conversion engine translation
unit (premultiply, unpremultiply, the generic any-format kernels, the
indexed lookup kernel and the multi-step driver). -/
inductive BLConvFuncId where
  | copy
  | copy_sse2
  | copy_avx2
  | copy_or_8888
  | copy_or_8888_sse2
  | copy_or_8888_avx2
  | copy_shufb_8888_ssse3
  | copy_shufb_8888_avx2
  | a8_from_8888
  | c8888_from_x8
  | c8888_from_x8_sse2
  | rgb32_from_rgb24_shufb_ssse3
  | rgb32_from_rgb24_shufb_avx2
  | premultiply_8888
  | premultiply_8888_sse2
  | premultiply_8888_shufb_ssse3
  | premultiply_8888_avx2
  | unpremultiply_8888
  | unpremultiply_8888_sse2
  | unpremultiply_8888_avx2
  | native_from_foreign
  | foreign_from_native
  | indexed_lookup
  | multi_step
deriving DecidableEq, Repr

/-- Storage of an IndexedLookup table: either embedded in the handle (with
the capacity in entries given by the EmbeddedData union of the source) or
heap-allocated together with a shared reference count. -/
inductive BLIndexedStorage where
  | embedded (capacity : Nat)
  | dynamic (refCount : Nat)
deriving DecidableEq, Repr

/-- The conversion strategy selected for a (dst, src) format pair, one
constructor per strategy of the spec, with the strategy parameters that
the corresponding member of the BLPixelConverterData union stores. -/
inductive BLConvStrategy where
  | rawCopy (bytesPerPixel : Nat)
  | copyOrFill (fillMask : Nat)
  | byteShuffle (fillMask : Nat)
  | extractChannel (alphaShift : Nat)
  | expandChannel (fillMask zeroMask : Nat)
  | premultiply (alphaShift : Nat)
  | unpremultiply (alphaShift : Nat)
  | nativeFromForeign
  | foreignFromNative (bytesPerPixel : Nat)
  | indexedLookup (dstBytesPerPixel : Nat) (storage : BLIndexedStorage)
  | multiStep
deriving DecidableEq, Repr

/-- BL_PIXEL_CONVERTER_INTERNAL_FLAG_INITIALIZED (pixelconverter_p.h line 42). -/
def BL_PIXEL_CONVERTER_INTERNAL_FLAG_INITIALIZED : Nat := 0x01

/-- BL_PIXEL_CONVERTER_INTERNAL_FLAG_OPTIMIZED (line 45). -/
def BL_PIXEL_CONVERTER_INTERNAL_FLAG_OPTIMIZED : Nat := 0x02

/-- BL_PIXEL_CONVERTER_INTERNAL_FLAG_RAW_COPY (line 48). -/
def BL_PIXEL_CONVERTER_INTERNAL_FLAG_RAW_COPY : Nat := 0x04

/-- BL_PIXEL_CONVERTER_INTERNAL_FLAG_MULTI_STEP (line 51). -/
def BL_PIXEL_CONVERTER_INTERNAL_FLAG_MULTI_STEP : Nat := 0x40

/-- BL_PIXEL_CONVERTER_INTERNAL_FLAG_DYNAMIC_DATA (line 57). -/
def BL_PIXEL_CONVERTER_INTERNAL_FLAG_DYNAMIC_DATA : Nat := 0x80

/-- The data block of a pixel converter handle (BLPixelConverterData of the
source): the selected kernel, the internal flag byte, and the live member
of the strategy union, made an explicit sum. -/
structure BLPixelConverterData where
  convertFunc : Option BLConvFuncId
  internalFlags : Nat
  strategy : BLConvStrategy
deriving DecidableEq, Repr

/-- Modelled from the spec: BLPixelConverterOptions. The spec describes a
row gap configuration (the number of destination bytes to emit after each
row) and says the gap is filled with a configured fill value; both fields
are modelled so that the gap-fill claims can be stated. -/
structure BLPixelConverterOptions where
  gap : Nat
  gapFillValue : Nat
deriving DecidableEq, Repr

/-- Default options: zero gap. -/
def blPixelConverterDefaultOptions : BLPixelConverterOptions :=
  { gap := 0, gapFillValue := 0 }

/-- Modelled from the spec: the inner byte loop of a conversion kernel row
(for bl_convert_copy this is exactly the per-row byte copy).  `pix` reads
the source byte for one destination byte; the loop writes `n` destination
bytes at `dp` from source positions at `sp`, advancing both pointers. -/
def convertRowLoop (pix : Mem → Int → Nat) (s : Mem) : Mem → Int → Int → Nat → Mem
  | m, _, _, 0 => m
  | m, dp, sp, Nat.succ n => convertRowLoop pix s (memWrite m dp (pix s sp)) (dp + 1) (sp + 1) n

/-- Modelled from the spec: one kernel row, `bw` converted bytes followed
by a gap of `gap` bytes filled through `blPixelConverterFillGap`. -/
def convertRowWithGap (pix : Mem → Int → Nat) (s : Mem) (m : Mem) (dp sp : Int) (bw gap : Nat) : Mem :=
  (blPixelConverterFillGap (convertRowLoop pix s m dp sp bw) (dp + bw) gap).1

/-- Modelled from the spec: the row loop of a conversion kernel, processing
`h` rows and advancing the destination and source pointers by the strides
`ds` and `ss` after every row. -/
def convertRun (pix : Mem → Int → Nat) (s : Mem) (ds ss : Int) (bw gap : Nat) : Nat → Mem → Int → Int → Mem
  | 0, m, _, _ => m
  | Nat.succ h, m, dp, sp =>
      convertRun pix s ds ss bw gap h (convertRowWithGap pix s m dp sp bw gap) (dp + ds) (sp + ss)

/-- Modelled from the spec: the per-byte source read of the selected
kernel.  The numeric arithmetic of the kernels is out of scope (the spec
treats the kernels as opaque); only the memory footprint is modelled, and
for rawCopy the byte load is exactly the bl_convert_copy behavior. -/
def blConvertPixFn : BLConvStrategy → (Mem → Int → Nat) :=
  fun _ => fun m a => m a

/-- Destination bytes per pixel stored with each strategy variant. -/
def strategyDstBpp : BLConvStrategy → Nat
  | .rawCopy bpp => bpp
  | .copyOrFill _ => 4
  | .byteShuffle _ => 4
  | .extractChannel _ => 1
  | .expandChannel _ _ => 4
  | .premultiply _ => 4
  | .unpremultiply _ => 4
  | .nativeFromForeign => 4
  | .foreignFromNative bpp => bpp
  | .indexedLookup bpp _ => bpp
  | .multiStep => 4

/-- Error taxonomy of the spec. -/
inductive BLConvError where
  | invalidFormat
  | unsupported
  | outOfMemory
  | invalidArgument
deriving DecidableEq, Repr

/-- Modelled from the spec: the Convert entry point.  It rejects a handle
without the Initialized flag with InvalidArgument and otherwise invokes
the stored kernel once: `h` rows, each of `w * bpp` converted bytes
followed by `options.gap` gap bytes emitted through
`blPixelConverterFillGap` (which the source hard-codes to write zero). -/
def blPixelConverterConvert (d : BLPixelConverterData) (dstMem : Mem) (dp ds : Int)
    (srcMem : Mem) (sp ss : Int) (w h : Nat) (options : BLPixelConverterOptions) :
    Except BLConvError Mem :=
  if d.internalFlags &&& BL_PIXEL_CONVERTER_INTERNAL_FLAG_INITIALIZED = 0 then
    .error .invalidArgument
  else
    .ok (convertRun (blConvertPixFn d.strategy) srcMem ds ss
          (w * strategyDstBpp d.strategy) options.gap h dstMem dp sp)

/-- One candidate implementation of a strategy: the capability set the
kernel requires and the kernel identifier. -/
structure BLConvCandidate where
  req : BLRuntimeCpuFeatures
  fn : BLConvFuncId
deriving DecidableEq, Repr

/-- Modelled from the spec: implementation resolution (the dispatch logic
in the conversion engine translation unit, not under src/).  Picks the
first candidate of the ordered list whose capability requirement is a
subset of the detected capabilities. -/
def blPixelConverterResolve (l : List BLConvCandidate) (caps : BLRuntimeCpuFeatures) :
    Option BLConvFuncId :=
  (l.find? (fun c => capSubset c.req caps)).map (fun c => c.fn)

/-- Candidate list for the raw copy strategy, most specialized first, from
the declarations at pixelconverter_p.h lines 286-288. -/
def copyFuncs : List BLConvCandidate :=
  [⟨avx2Caps, .copy_avx2⟩, ⟨sse2Caps, .copy_sse2⟩, ⟨noCaps, .copy⟩]

/-- Candidate list for the copy-or-fill strategy (lines 290-292). -/
def copyOr8888Funcs : List BLConvCandidate :=
  [⟨avx2Caps, .copy_or_8888_avx2⟩, ⟨sse2Caps, .copy_or_8888_sse2⟩, ⟨noCaps, .copy_or_8888⟩]

/-- Candidate list for the byte shuffle strategy (lines 294-295): only an
SSSE3 and an AVX2 kernel are declared, there is no baseline fallback. -/
def copyShufb8888Funcs : List BLConvCandidate :=
  [⟨avx2Caps, .copy_shufb_8888_avx2⟩, ⟨ssse3Caps, .copy_shufb_8888_ssse3⟩]

/-- Candidate list for the alpha extraction strategy (line 297). -/
def a8From8888Funcs : List BLConvCandidate :=
  [⟨noCaps, .a8_from_8888⟩]

/-- Candidate list for the channel expansion strategy (lines 299-300). -/
def c8888FromX8Funcs : List BLConvCandidate :=
  [⟨sse2Caps, .c8888_from_x8_sse2⟩, ⟨noCaps, .c8888_from_x8⟩]

/-- Candidate list for the premultiply strategy (lines 305-315; the
baseline kernel is modelled from the spec, it lives in the conversion
engine translation unit). -/
def premultiply8888Funcs : List BLConvCandidate :=
  [⟨avx2Caps, .premultiply_8888_avx2⟩, ⟨ssse3Caps, .premultiply_8888_shufb_ssse3⟩,
   ⟨sse2Caps, .premultiply_8888_sse2⟩, ⟨noCaps, .premultiply_8888⟩]

/-- Candidate list for the unpremultiply strategy (lines 317-324; baseline
modelled from the spec). -/
def unpremultiply8888Funcs : List BLConvCandidate :=
  [⟨avx2Caps, .unpremultiply_8888_avx2⟩, ⟨sse2Caps, .unpremultiply_8888_sse2⟩,
   ⟨noCaps, .unpremultiply_8888⟩]

/-- Candidate list for the generic native-from-foreign strategy (baseline
only, modelled from the spec). -/
def nativeFromForeignFuncs : List BLConvCandidate :=
  [⟨noCaps, .native_from_foreign⟩]

/-- Candidate list for the generic foreign-from-native strategy (baseline
only, modelled from the spec). -/
def foreignFromNativeFuncs : List BLConvCandidate :=
  [⟨noCaps, .foreign_from_native⟩]

/-- Candidate list for the indexed lookup strategy (baseline only,
modelled from the spec). -/
def indexedLookupFuncs : List BLConvCandidate :=
  [⟨noCaps, .indexed_lookup⟩]

/-- Candidate list for the multi-step driver (baseline only, modelled from
the spec). -/
def multiStepFuncs : List BLConvCandidate :=
  [⟨noCaps, .multi_step⟩]

/-- Candidate list attached to each strategy. -/
def blPixelConverterFuncsOf : BLConvStrategy → List BLConvCandidate
  | .rawCopy _ => copyFuncs
  | .copyOrFill _ => copyOr8888Funcs
  | .byteShuffle _ => copyShufb8888Funcs
  | .extractChannel _ => a8From8888Funcs
  | .expandChannel _ _ => c8888FromX8Funcs
  | .premultiply _ => premultiply8888Funcs
  | .unpremultiply _ => unpremultiply8888Funcs
  | .nativeFromForeign => nativeFromForeignFuncs
  | .foreignFromNative _ => foreignFromNativeFuncs
  | .indexedLookup _ _ => indexedLookupFuncs
  | .multiStep => multiStepFuncs

/-- Modelled from the spec: a sanitized pixel format description (depth,
channel masks, premultiplied and indexed flags, palette size). -/
structure BLFormatInfo where
  depth : Nat
  rMask : Nat
  gMask : Nat
  bMask : Nat
  aMask : Nat
  premultiplied : Bool
  indexed : Bool
  paletteSize : Nat
deriving DecidableEq, Repr

/-- Modelled from the spec: format validation - depth in the supported
set, non-overlapping channel masks within the depth width, indexed formats
with a palette size in (0, 256]. -/
def blFormatInfoValid (f : BLFormatInfo) : Bool :=
  decide (f.depth = 8 ∨ f.depth = 16 ∨ f.depth = 24 ∨ f.depth = 32) &&
  (if f.indexed then decide (0 < f.paletteSize ∧ f.paletteSize ≤ 256)
   else decide (f.rMask &&& f.gMask = 0 ∧ f.rMask &&& f.bMask = 0 ∧ f.rMask &&& f.aMask = 0 ∧
     f.gMask &&& f.bMask = 0 ∧ f.gMask &&& f.aMask = 0 ∧ f.bMask &&& f.aMask = 0 ∧
     f.rMask < 2 ^ f.depth ∧ f.gMask < 2 ^ f.depth ∧ f.bMask < 2 ^ f.depth ∧
     f.aMask < 2 ^ f.depth))

/-- A mask that covers exactly one byte lane of a 32-bit pixel (or is absent). -/
def byteMaskAligned (m : Nat) : Bool :=
  decide (m = 0 ∨ m = 0xFF ∨ m = 0xFF00 ∨ m = 0xFF0000 ∨ m = 0xFF000000)

/-- Same depth, masks and premultiplied flag on both sides. -/
def sameChannelLayout (d s : BLFormatInfo) : Bool :=
  decide (d.depth = s.depth ∧ d.rMask = s.rMask ∧ d.gMask = s.gMask ∧
    d.bMask = s.bMask ∧ d.aMask = s.aMask ∧ ¬d.indexed ∧ ¬s.indexed)

/-- The native 32-bit layout (trailing blue byte, leading alpha byte). -/
def isNative32 (f : BLFormatInfo) : Bool :=
  decide (f.depth = 32 ∧ f.aMask = 0xFF000000 ∧ f.rMask = 0xFF0000 ∧
    f.gMask = 0xFF00 ∧ f.bMask = 0xFF ∧ ¬f.indexed)

/-- Bit shift of the byte lane covered by a 32-bit mask. -/
def maskByteShift (m : Nat) : Nat :=
  if m &&& 0xFF ≠ 0 then 0
  else if m &&& 0xFF00 ≠ 0 then 8
  else if m &&& 0xFF0000 ≠ 0 then 16
  else 24

/-- Same channel bytes on both sides, assigned to byte lanes in a
(possibly) different order: a pure byte permutation. -/
def isByteShuffleOf (d s : BLFormatInfo) : Bool :=
  decide (d.depth = 32 ∧ s.depth = 32 ∧ ¬d.indexed ∧ ¬s.indexed ∧
    d.premultiplied = s.premultiplied) &&
  byteMaskAligned d.rMask && byteMaskAligned d.gMask &&
  byteMaskAligned d.bMask && byteMaskAligned d.aMask &&
  byteMaskAligned s.rMask && byteMaskAligned s.gMask &&
  byteMaskAligned s.bMask && byteMaskAligned s.aMask &&
  decide ((⟦[d.rMask, d.gMask, d.bMask, d.aMask]⟧ : Multiset Nat) =
    (⟦[s.rMask, s.gMask, s.bMask, s.aMask]⟧ : Multiset Nat))

/-- Embedded lookup table capacity in entries, from the EmbeddedData union
of the source (64 bytes total: 64, 32 or 16 entries for 1, 2 or 4 byte
wide entries). -/
def blIndexedEmbeddedCapacity (bpp : Nat) : Nat := 64 / bpp

/-- Modelled from the spec: the storage decision for an IndexedLookup
table - embedded when the table of paletteSize entries of dst
bytes-per-pixel width fits the 64-byte embedded block, else
heap-allocated with a shared reference count starting at one. -/
def blIndexedStorageFor (paletteSize bpp : Nat) : BLIndexedStorage :=
  if paletteSize * bpp ≤ 64 then .embedded (blIndexedEmbeddedCapacity bpp)
  else .dynamic 1

/-- Modelled from the spec: the lookup table built at Init time, one
destination entry per palette entry. -/
def blIndexedTable (palette : List Nat) (conv : Nat → Nat) : List Nat :=
  palette.map conv

/-- Modelled from the spec: strategy selection for a sanitized format
pair, first match wins.  The byte shuffle strategy is gated on SSSE3
because the source declares no baseline byte shuffle kernel. -/
def blPixelConverterSelect (caps : BLRuntimeCpuFeatures) (d s : BLFormatInfo) :
    Option BLConvStrategy :=
  if d.indexed then none
  else if s.indexed then
    some (.indexedLookup (d.depth / 8) (blIndexedStorageFor s.paletteSize (d.depth / 8)))
  else if d = s then some (.rawCopy (d.depth / 8))
  else if decide (d.depth = s.depth ∧ d.rMask = s.rMask ∧ d.gMask = s.gMask ∧
      d.bMask = s.bMask ∧ s.aMask = 0 ∧ d.aMask ≠ 0 ∧
      d.premultiplied = s.premultiplied) then some (.copyOrFill d.aMask)
  else if caps.ssse3 && isByteShuffleOf d s then some (.byteShuffle d.aMask)
  else if decide (d.depth = 8 ∧ d.aMask = 0xFF ∧ d.rMask = 0 ∧ d.gMask = 0 ∧ d.bMask = 0) &&
      isNative32 s then some (.extractChannel (maskByteShift s.aMask))
  else if decide (s.depth = 8) && isNative32 d then
    some (.expandChannel d.aMask (d.rMask ||| d.gMask ||| d.bMask))
  else if sameChannelLayout d s && decide (d.premultiplied = true ∧ s.premultiplied = false) then
    some (.premultiply (maskByteShift d.aMask))
  else if sameChannelLayout d s && decide (d.premultiplied = false ∧ s.premultiplied = true) then
    some (.unpremultiply (maskByteShift d.aMask))
  else if isNative32 d then some .nativeFromForeign
  else if isNative32 s then some (.foreignFromNative (d.depth / 8))
  else some .multiStep

/-- The internal flag combination implied by each strategy (before the
diagnostic Optimized bit): Initialized always, plus RawCopy, MultiStep or
DynamicData for the strategies that own those bits. -/
def strategyBaseFlags : BLConvStrategy → Nat
  | .rawCopy _ =>
      BL_PIXEL_CONVERTER_INTERNAL_FLAG_INITIALIZED |||
      BL_PIXEL_CONVERTER_INTERNAL_FLAG_RAW_COPY
  | .multiStep =>
      BL_PIXEL_CONVERTER_INTERNAL_FLAG_INITIALIZED |||
      BL_PIXEL_CONVERTER_INTERNAL_FLAG_MULTI_STEP
  | .indexedLookup _ (.dynamic _) =>
      BL_PIXEL_CONVERTER_INTERNAL_FLAG_INITIALIZED |||
      BL_PIXEL_CONVERTER_INTERNAL_FLAG_DYNAMIC_DATA
  | .indexedLookup _ (.embedded _) => BL_PIXEL_CONVERTER_INTERNAL_FLAG_INITIALIZED
  | .copyOrFill _ => BL_PIXEL_CONVERTER_INTERNAL_FLAG_INITIALIZED
  | .byteShuffle _ => BL_PIXEL_CONVERTER_INTERNAL_FLAG_INITIALIZED
  | .extractChannel _ => BL_PIXEL_CONVERTER_INTERNAL_FLAG_INITIALIZED
  | .expandChannel _ _ => BL_PIXEL_CONVERTER_INTERNAL_FLAG_INITIALIZED
  | .premultiply _ => BL_PIXEL_CONVERTER_INTERNAL_FLAG_INITIALIZED
  | .unpremultiply _ => BL_PIXEL_CONVERTER_INTERNAL_FLAG_INITIALIZED
  | .nativeFromForeign => BL_PIXEL_CONVERTER_INTERNAL_FLAG_INITIALIZED
  | .foreignFromNative _ => BL_PIXEL_CONVERTER_INTERNAL_FLAG_INITIALIZED

/-- True exactly for the rawCopy strategy variant. -/
def isRawCopyStrategy : BLConvStrategy → Bool
  | .rawCopy _ => true
  | .copyOrFill _ => false
  | .byteShuffle _ => false
  | .extractChannel _ => false
  | .expandChannel _ _ => false
  | .premultiply _ => false
  | .unpremultiply _ => false
  | .nativeFromForeign => false
  | .foreignFromNative _ => false
  | .indexedLookup _ _ => false
  | .multiStep => false

/-- True exactly for the multiStep strategy variant. -/
def isMultiStepStrategy : BLConvStrategy → Bool
  | .multiStep => true
  | .rawCopy _ => false
  | .copyOrFill _ => false
  | .byteShuffle _ => false
  | .extractChannel _ => false
  | .expandChannel _ _ => false
  | .premultiply _ => false
  | .unpremultiply _ => false
  | .nativeFromForeign => false
  | .foreignFromNative _ => false
  | .indexedLookup _ _ => false

/-- True exactly for an indexedLookup variant with a heap table. -/
def isDynamicDataStrategy : BLConvStrategy → Bool
  | .indexedLookup _ (.dynamic _) => true
  | .indexedLookup _ (.embedded _) => false
  | .rawCopy _ => false
  | .copyOrFill _ => false
  | .byteShuffle _ => false
  | .extractChannel _ => false
  | .expandChannel _ _ => false
  | .premultiply _ => false
  | .unpremultiply _ => false
  | .nativeFromForeign => false
  | .foreignFromNative _ => false
  | .multiStep => false

/-- Modelled from the spec: blPixelConverterInitInternal - validate both
formats, select a strategy, resolve the first applicable implementation,
and populate the handle with the kernel, the flag byte and the strategy
data.  On any failure no handle is produced. -/
def blPixelConverterInitInternal (caps : BLRuntimeCpuFeatures) (d s : BLFormatInfo) :
    Except BLConvError BLPixelConverterData :=
  if blFormatInfoValid d && blFormatInfoValid s then
    match blPixelConverterSelect caps d s with
    | none => .error .unsupported
    | some strat =>
      match (blPixelConverterFuncsOf strat).find? (fun c => capSubset c.req caps) with
      | none => .error .unsupported
      | some c =>
        .ok { convertFunc := some c.fn,
              internalFlags := strategyBaseFlags strat |||
                (if c.req = noCaps then 0 else BL_PIXEL_CONVERTER_INTERNAL_FLAG_OPTIMIZED),
              strategy := strat }
  else .error .invalidFormat

/-- The premultiplied native 32-bit format. -/
def prgb32Fmt : BLFormatInfo :=
  ⟨32, 0xFF0000, 0xFF00, 0xFF, 0xFF000000, true, false, 0⟩

/-- The uninitialized sentinel handle data: null kernel pointer, cleared
flags (the strategy payload of the zeroed block reads as a rawCopy of
width zero). -/
def blPixelConverterSentinelData : BLPixelConverterData :=
  ⟨none, 0, .rawCopy 0⟩

/-- One Copy or Reset call on handles sharing one dynamic table. -/
inductive BLRefOp where
  | copy
  | reset
deriving DecidableEq, Repr

/-- State of a shared dynamic table: its reference count and how many
times it has been freed. -/
structure BLRefState where
  refCount : Nat
  freeCount : Nat
deriving DecidableEq, Repr

/-- Modelled from the spec: effect of one Copy or Reset call on the
shared reference count.  Either call requires a live handle (positive
count); Copy increments the count, Reset decrements it and frees the
table exactly when the count reaches zero. -/
def blRefStep (st : BLRefState) : BLRefOp → Option BLRefState
  | .copy => if st.refCount = 0 then none else some ⟨st.refCount + 1, st.freeCount⟩
  | .reset =>
      if st.refCount = 0 then none
      else some ⟨st.refCount - 1,
        if st.refCount = 1 then st.freeCount + 1 else st.freeCount⟩

/-- Run a sequence of Copy and Reset calls. -/
def blRefRun : List BLRefOp → BLRefState → Option BLRefState
  | [], st => some st
  | op :: ops, st =>
      match blRefStep st op with
      | none => none
      | some st2 => blRefRun ops st2

/-- Number of Copy calls in a sequence. -/
def countCopies : List BLRefOp → Nat
  | [] => 0
  | .copy :: t => countCopies t + 1
  | .reset :: t => countCopies t

/-- Number of Reset calls in a sequence. -/
def countResets : List BLRefOp → Nat
  | [] => 0
  | .copy :: t => countResets t
  | .reset :: t => countResets t + 1

/-- A handle together with the heap state of its (possible) dynamic
table: the world a Reset call acts on. -/
structure BLResetWorld where
  data : BLPixelConverterData
  heap : BLRefState
deriving DecidableEq, Repr

/-- Release one reference: decrement, free at zero. -/
def blRefRelease (h : BLRefState) : BLRefState :=
  if h.refCount = 1 then ⟨0, h.freeCount + 1⟩ else ⟨h.refCount - 1, h.freeCount⟩

/-- Modelled from the spec: Reset - when the handle carries the
DynamicData flag, release one reference of the shared table (freeing it
when the count reaches zero), then clear the handle to the uninitialized
sentinel. -/
def blPixelConverterReset (wrld : BLResetWorld) : BLResetWorld :=
  { data := blPixelConverterSentinelData,
    heap :=
      if wrld.data.internalFlags &&& BL_PIXEL_CONVERTER_INTERNAL_FLAG_DYNAMIC_DATA ≠ 0 then
        blRefRelease wrld.heap
      else wrld.heap }

/-- BL_PIXEL_CONVERTER_MULTISTEP_BUFFER_SIZE (pixelconverter_p.h line 79):
the intermediate buffer byte size, a compile-time constant. -/
def BL_PIXEL_CONVERTER_MULTISTEP_BUFFER_SIZE : Nat := 2048 + 1024

/-- BLPixelConverterMultiStepContext (pixelconverter_p.h lines 82-86):
a shared reference count and the two nested converters. -/
structure BLPixelConverterMultiStepContext where
  refCount : Nat
  first : BLPixelConverterData
  second : BLPixelConverterData
deriving DecidableEq, Repr

/-- Modelled from the spec: the context built by Init for a MultiStep
converter, owning the two nested handles with one shared reference. -/
def blPixelConverterInitMultiStepCtx (f s : BLPixelConverterData) :
    BLPixelConverterMultiStepContext :=
  ⟨1, f, s⟩

/-- Modelled from the spec: how many intermediate pixels fit the fixed
intermediate buffer. -/
def blMultiStepPixelCount (ibpp : Nat) : Nat :=
  BL_PIXEL_CONVERTER_MULTISTEP_BUFFER_SIZE / ibpp

/-- Modelled from the spec: the widths of the row chunks a MultiStep
conversion processes, each bounded by the intermediate pixel count. -/
def blMultiStepChunkWidths (pc : Nat) (w : Nat) : List Nat :=
  if _h0 : w = 0 then []
  else if _h1 : w ≤ pc then [w]
  else if _h2 : pc = 0 then []
  else pc :: blMultiStepChunkWidths pc (w - pc)
termination_by w
decreasing_by omega

theorem blPixelConverterFillGap_snd (m : Mem) (data : Int) (size : Nat) :
    (blPixelConverterFillGap m data size).2 = data + size := by
  induction size generalizing m data with
  | zero => simp [blPixelConverterFillGap]
  | succ n ih =>
    simp only [blPixelConverterFillGap]
    rw [ih]
    omega

theorem blPixelConverterFillGap_mem (m : Mem) (data : Int) (size : Nat) (a : Int) :
    (blPixelConverterFillGap m data size).1 a =
      if data ≤ a ∧ a < data + size then 0 else m a := by
  induction size generalizing m data with
  | zero =>
    simp only [blPixelConverterFillGap]
    rw [if_neg]
    omega
  | succ n ih =>
    simp only [blPixelConverterFillGap]
    rw [ih]
    simp only [memWrite]
    split_ifs with h1 h2 h3 <;> first | rfl | omega

/-- C10: for every memory, pointer and size, `blPixelConverterFillGap`
writes the byte value zero to each of the `size` bytes starting at `data`,
leaves every other byte unchanged, and returns the pointer `data + size`;
the fill value is the constant zero and no caller-configured option is
even a parameter of the function. -/
theorem blPixelConverterFillGap_writes_zero (m : Mem) (data : Int) (size : Nat) :
    (blPixelConverterFillGap m data size).2 = data + size ∧
    (∀ i : Nat, i < size → (blPixelConverterFillGap m data size).1 (data + i) = 0) ∧
    (∀ a : Int, a < data ∨ data + size ≤ a → (blPixelConverterFillGap m data size).1 a = m a) := by
  refine ⟨blPixelConverterFillGap_snd m data size, ?_, ?_⟩
  · intro i hi
    rw [blPixelConverterFillGap_mem]
    rw [if_pos]
    omega
  · intro a ha
    rw [blPixelConverterFillGap_mem]
    rw [if_neg]
    omega

theorem convertRowLoop_mem (pix : Mem → Int → Nat) (s m : Mem) (dp sp : Int) (n : Nat) (a : Int) :
    convertRowLoop pix s m dp sp n a =
      if dp ≤ a ∧ a < dp + n then pix s (sp + (a - dp)) else m a := by
  induction n generalizing m dp sp with
  | zero =>
    simp only [convertRowLoop]
    rw [if_neg]
    omega
  | succ n ih =>
    simp only [convertRowLoop]
    rw [ih]
    simp only [memWrite]
    by_cases h1 : dp + 1 ≤ a ∧ a < dp + 1 + n
    · rw [if_pos h1, if_pos (show dp ≤ a ∧ a < dp + ((n + 1 : Nat) : Int) by push_cast; omega)]
      have e : sp + 1 + (a - (dp + 1)) = sp + (a - dp) := by omega
      rw [e]
    · rw [if_neg h1]
      by_cases h2 : a = dp
      · rw [if_pos h2, if_pos (show dp ≤ a ∧ a < dp + ((n + 1 : Nat) : Int) by push_cast; omega)]
        have e : sp + (a - dp) = sp := by omega
        rw [e]
      · rw [if_neg h2, if_neg (show ¬(dp ≤ a ∧ a < dp + ((n + 1 : Nat) : Int)) by push_cast; omega)]

theorem convertRowWithGap_mem (pix : Mem → Int → Nat) (s m : Mem) (dp sp : Int) (bw gap : Nat) (a : Int) :
    convertRowWithGap pix s m dp sp bw gap a =
      if dp ≤ a ∧ a < dp + bw then pix s (sp + (a - dp))
      else if dp + bw ≤ a ∧ a < dp + bw + gap then 0
      else m a := by
  unfold convertRowWithGap
  rw [blPixelConverterFillGap_mem, convertRowLoop_mem]
  split_ifs <;> first | rfl | omega

/-- Addresses written by a row that starts `k ≥ 1` strides away are disjoint
from offsets inside the current row, provided the stride magnitude covers
the written span `B`. -/
theorem stride_sep (ds : Int) (B : Nat) (sep : (B : Int) ≤ ds ∨ ds ≤ -(B : Int))
    (k : Nat) (hk : 1 ≤ k) (i : Int) (hi0 : 0 ≤ i) (hiB : i < (B : Int)) :
    ¬((k : Int) * ds ≤ i ∧ i < (k : Int) * ds + (B : Int)) := by
  rcases sep with h | h
  · intro hc
    have hds : (0 : Int) ≤ ds := le_trans (by positivity) h
    have hmul : (1 : Int) * ds ≤ (k : Int) * ds :=
      mul_le_mul_of_nonneg_right (by exact_mod_cast hk) hds
    rw [one_mul] at hmul
    linarith [hc.1]
  · intro hc
    have hds : ds ≤ (0 : Int) := le_trans h (by omega)
    have hmul : (k : Int) * ds ≤ (1 : Int) * ds :=
      mul_le_mul_of_nonpos_right (by exact_mod_cast hk) hds
    rw [one_mul] at hmul
    linarith [hc.2]

/-- Frame property of the row loop: an address outside every written row
span keeps its previous value. -/
theorem convertRun_frame (pix : Mem → Int → Nat) (s : Mem) (ds ss : Int) (bw gap : Nat)
    (h : Nat) (m : Mem) (dp sp : Int) (a : Int)
    (ha : ∀ y : Nat, y < h → ¬(dp + (y : Int) * ds ≤ a ∧ a < dp + (y : Int) * ds + ((bw : Int) + (gap : Int)))) :
    convertRun pix s ds ss bw gap h m dp sp a = m a := by
  induction h generalizing m dp sp with
  | zero => rfl
  | succ h ih =>
    simp only [convertRun]
    rw [ih]
    · rw [convertRowWithGap_mem]
      have h0 := ha 0 (Nat.succ_pos h)
      simp only [Nat.cast_zero, zero_mul, add_zero] at h0
      rw [if_neg (by omega), if_neg (by omega)]
    · intro y hy
      have hy1 := ha (y + 1) (by omega)
      have e : dp + ((y + 1 : Nat) : Int) * ds = dp + ds + (y : Int) * ds := by push_cast; ring
      rw [e] at hy1
      exact hy1

/-- Pixel readback: after the full row loop, the destination byte `i` of
row `y` holds the kernel value read at source byte `i` of source row `y`,
for any strides whose magnitude covers the written span of a row. -/
theorem convertRun_pixel (pix : Mem → Int → Nat) (s : Mem) (ds ss : Int) (bw gap : Nat)
    (h : Nat) (m : Mem) (dp sp : Int) (y i : Nat)
    (sep : ((bw : Int) + (gap : Int)) ≤ ds ∨ ds ≤ -((bw : Int) + (gap : Int)))
    (hy : y < h) (hi : i < bw) :
    convertRun pix s ds ss bw gap h m dp sp (dp + (y : Int) * ds + (i : Int)) =
      pix s (sp + (y : Int) * ss + (i : Int)) := by
  induction h generalizing m dp sp y with
  | zero => omega
  | succ h ih =>
    simp only [convertRun]
    cases y with
    | zero =>
      simp only [Nat.cast_zero, zero_mul, add_zero]
      rw [convertRun_frame]
      · rw [convertRowWithGap_mem]
        rw [if_pos (by omega)]
        have e : sp + (dp + (i : Int) - dp) = sp + (i : Int) := by omega
        rw [e]
      · intro y' hy'
        have e : dp + ds + (y' : Int) * ds = dp + ((y' + 1 : Nat) : Int) * ds := by push_cast; ring
        rw [e]
        intro hc
        exact stride_sep ds (bw + gap) (by push_cast at sep ⊢; omega) (y' + 1) (by omega)
          (i : Int) (by omega) (by push_cast; omega)
          (by push_cast at hc ⊢; constructor <;> omega)
    | succ y' =>
      have e : dp + ((y' + 1 : Nat) : Int) * ds + (i : Int) =
          (dp + ds) + (y' : Int) * ds + (i : Int) := by push_cast; ring
      rw [e, ih _ _ _ y' (by omega)]
      congr 1
      push_cast
      ring

/-- Gap readback: after the full row loop, every byte of the gap region of
row `y` (offsets `bw ≤ i < bw + gap` from the row start) holds zero. -/
theorem convertRun_gap (pix : Mem → Int → Nat) (s : Mem) (ds ss : Int) (bw gap : Nat)
    (h : Nat) (m : Mem) (dp sp : Int) (y i : Nat)
    (sep : ((bw : Int) + (gap : Int)) ≤ ds ∨ ds ≤ -((bw : Int) + (gap : Int)))
    (hy : y < h) (hlo : bw ≤ i) (hhi : i < bw + gap) :
    convertRun pix s ds ss bw gap h m dp sp (dp + (y : Int) * ds + (i : Int)) = 0 := by
  induction h generalizing m dp sp y with
  | zero => omega
  | succ h ih =>
    simp only [convertRun]
    cases y with
    | zero =>
      simp only [Nat.cast_zero, zero_mul, add_zero]
      rw [convertRun_frame]
      · rw [convertRowWithGap_mem]
        rw [if_neg (by omega), if_pos (by omega)]
      · intro y' hy'
        have e : dp + ds + (y' : Int) * ds = dp + ((y' + 1 : Nat) : Int) * ds := by push_cast; ring
        rw [e]
        intro hc
        exact stride_sep ds (bw + gap) (by push_cast at sep ⊢; omega) (y' + 1) (by omega)
          (i : Int) (by omega) (by push_cast; omega)
          (by push_cast at hc ⊢; constructor <;> omega)
    | succ y' =>
      have e : dp + ((y' + 1 : Nat) : Int) * ds + (i : Int) =
          (dp + ds) + (y' : Int) * ds + (i : Int) := by push_cast; ring
      rw [e]
      exact ih _ _ _ y' (by omega)

theorem convertRun_zero_bw (pix : Mem → Int → Nat) (s : Mem) (ds ss : Int) (h : Nat)
    (m : Mem) (dp sp : Int) :
    convertRun pix s ds ss 0 0 h m dp sp = m := by
  induction h generalizing m dp sp with
  | zero => rfl
  | succ h ih =>
    simp only [convertRun]
    rw [ih]
    rfl

/-- C7: for every handle whose selected strategy is RawCopy and every
width, height and strides satisfying the Convert preconditions (stride
magnitude at least the packed row width; default options, hence no gap),
the destination bytes written by Convert are byte-identical to the
corresponding source row bytes. -/
theorem blPixelConverterConvert_rawCopy_identical
    (bpp : Nat) (d : BLPixelConverterData) (dstMem srcMem : Mem) (dp ds sp ss : Int)
    (w h : Nat) (result : Mem) (y i : Nat)
    (hstrat : d.strategy = .rawCopy bpp)
    (hinit : ¬(d.internalFlags &&& BL_PIXEL_CONVERTER_INTERNAL_FLAG_INITIALIZED = 0))
    (hstride : ((w * bpp : Nat) : Int) ≤ ds ∨ ds ≤ -((w * bpp : Nat) : Int))
    (hok : blPixelConverterConvert d dstMem dp ds srcMem sp ss w h
             blPixelConverterDefaultOptions = .ok result)
    (hy : y < h) (hi : i < w * bpp) :
    result (dp + (y : Int) * ds + (i : Int)) = srcMem (sp + (y : Int) * ss + (i : Int)) := by
  unfold blPixelConverterConvert at hok
  rw [if_neg hinit] at hok
  simp only [Except.ok.injEq] at hok
  subst hok
  rw [hstrat] at *
  simp only [strategyDstBpp, blPixelConverterDefaultOptions] at *
  rw [convertRun_pixel (blConvertPixFn (.rawCopy bpp)) srcMem ds ss (w * bpp) 0 h dstMem dp sp y i
        (by simpa using hstride) hy hi]
  rfl

theorem blPixelConverterConvert_rawCopy_identical_witness :
    convertRun (blConvertPixFn (.rawCopy 1)) (fun _ => 7) 1 1 (1 * 1) 0 1 (fun _ => 9) 0 0
        (0 + ((0 : Nat) : Int) * 1 + ((0 : Nat) : Int)) =
      (fun _ => (7 : Nat)) (0 + ((0 : Nat) : Int) * 1 + ((0 : Nat) : Int)) :=
  blPixelConverterConvert_rawCopy_identical 1 ⟨some .copy, 5, .rawCopy 1⟩
    (fun _ => 9) (fun _ => 7) 0 1 0 1 1 1
    (convertRun (blConvertPixFn (.rawCopy 1)) (fun _ => 7) 1 1 (1 * 1) 0 1 (fun _ => 9) 0 0)
    0 0 rfl (by decide) (Or.inl (by decide)) rfl (by decide) (by decide)

/-- C2: Convert with width = 0 on an initialized handle succeeds and
leaves the destination memory untouched (stated for the default, zero-gap
options), and Convert with height = 0 succeeds and leaves the destination
memory untouched for every width, every options value and every pointer
and stride (pointers need not reference anything meaningful). -/
theorem blPixelConverterConvert_zero_dims
    (d : BLPixelConverterData) (dstMem srcMem : Mem) (dp ds sp ss : Int)
    (hinit : ¬(d.internalFlags &&& BL_PIXEL_CONVERTER_INTERNAL_FLAG_INITIALIZED = 0)) :
    (∀ h : Nat, blPixelConverterConvert d dstMem dp ds srcMem sp ss 0 h
        blPixelConverterDefaultOptions = .ok dstMem) ∧
    (∀ (w : Nat) (opts : BLPixelConverterOptions),
        blPixelConverterConvert d dstMem dp ds srcMem sp ss w 0 opts = .ok dstMem) := by
  constructor
  · intro h
    unfold blPixelConverterConvert
    rw [if_neg hinit]
    simp only [blPixelConverterDefaultOptions, Nat.zero_mul]
    rw [convertRun_zero_bw]
  · intro w opts
    unfold blPixelConverterConvert
    rw [if_neg hinit]
    rfl

theorem blPixelConverterConvert_zero_dims_witness :
    blPixelConverterConvert ⟨some .copy, 5, .rawCopy 4⟩ (fun _ => 9) 0 16 (fun _ => 1) 0 16 0 3
        blPixelConverterDefaultOptions = .ok (fun _ => 9) ∧
    blPixelConverterConvert ⟨some .copy, 5, .rawCopy 4⟩ (fun _ => 9) 0 16 (fun _ => 1) 0 16 5 0
        ⟨7, 7⟩ = .ok (fun _ => 9) :=
  ⟨(blPixelConverterConvert_zero_dims ⟨some .copy, 5, .rawCopy 4⟩ (fun _ => 9) (fun _ => 1)
      0 16 0 16 (by decide)).1 3,
   (blPixelConverterConvert_zero_dims ⟨some .copy, 5, .rawCopy 4⟩ (fun _ => 9) (fun _ => 1)
      0 16 0 16 (by decide)).2 5 ⟨7, 7⟩⟩

/-- C1 counterexample: a Convert call whose destination stride (2) is
strictly greater than width times bytes-per-pixel (1), with a
caller-configured fill value of 255 in the options, leaves the gap byte
equal to 0 and not 255: the configured fill value is ignored, because the
gap is emitted through `blPixelConverterFillGap`, which hard-codes zero. -/
theorem blPixelConverterConvert_gap_not_configured_counterexample :
    (blPixelConverterConvert ⟨some .copy, 5, .rawCopy 1⟩ (fun _ => 9) 0 2 (fun _ => 1) 0 2 1 1
        ⟨1, 255⟩).map (fun m => m 1) = Except.ok 0 ∧
    ¬((blPixelConverterConvert ⟨some .copy, 5, .rawCopy 1⟩ (fun _ => 9) 0 2 (fun _ => 1) 0 2 1 1
        ⟨1, 255⟩).map (fun m => m 1) = Except.ok 255) := by
  constructor
  · rfl
  · intro hc
    have h0 : (blPixelConverterConvert ⟨some .copy, 5, .rawCopy 1⟩ (fun _ => 9) 0 2
        (fun _ => 1) 0 2 1 1 ⟨1, 255⟩).map (fun m => m 1) = Except.ok 0 := rfl
    rw [h0] at hc
    exact absurd (Except.ok.inj hc) (by decide)

/-- C1 amended: for every Convert call on an initialized handle that emits
a row gap, every byte of the gap region following each destination row
equals the constant zero after the call - the gap is never left
uninitialized, and the fill byte is always zero, independent of any
caller-configured fill value in the options. -/
theorem blPixelConverterConvert_gap_filled_zero
    (d : BLPixelConverterData) (dstMem srcMem : Mem) (dp ds sp ss : Int)
    (w h : Nat) (opts : BLPixelConverterOptions) (result : Mem) (y i : Nat)
    (hinit : ¬(d.internalFlags &&& BL_PIXEL_CONVERTER_INTERNAL_FLAG_INITIALIZED = 0))
    (hsep : ((w * strategyDstBpp d.strategy : Nat) : Int) + (opts.gap : Int) ≤ ds ∨
            ds ≤ -(((w * strategyDstBpp d.strategy : Nat) : Int) + (opts.gap : Int)))
    (hok : blPixelConverterConvert d dstMem dp ds srcMem sp ss w h opts = .ok result)
    (hy : y < h) (hlo : w * strategyDstBpp d.strategy ≤ i)
    (hhi : i < w * strategyDstBpp d.strategy + opts.gap) :
    result (dp + (y : Int) * ds + (i : Int)) = 0 := by
  unfold blPixelConverterConvert at hok
  rw [if_neg hinit] at hok
  simp only [Except.ok.injEq] at hok
  subst hok
  exact convertRun_gap (blConvertPixFn d.strategy) srcMem ds ss
    (w * strategyDstBpp d.strategy) opts.gap h dstMem dp sp y i hsep hy hlo hhi

theorem blPixelConverterConvert_gap_filled_zero_witness :
    convertRun (blConvertPixFn (.rawCopy 1)) (fun _ => 1) 2 2 (1 * 1) 1 1 (fun _ => 9) 0 0
      (0 + (0 : Int) * 2 + ((1 : Nat) : Int)) = 0 :=
  blPixelConverterConvert_gap_filled_zero ⟨some .copy, 5, .rawCopy 1⟩ (fun _ => 9) (fun _ => 1)
    0 2 0 2 1 1 ⟨1, 255⟩
    (convertRun (blConvertPixFn (.rawCopy 1)) (fun _ => 1) 2 2 (1 * 1) 1 1 (fun _ => 9) 0 0)
    0 1 (by decide) (Or.inl (by decide)) rfl (by decide) (by decide) (by decide)

theorem capSubset_noCaps (b : BLRuntimeCpuFeatures) : capSubset noCaps b = true := by
  simp [capSubset, noCaps]

theorem blPixelConverterResolve_cons_pos (caps : BLRuntimeCpuFeatures)
    (c : BLConvCandidate) (t : List BLConvCandidate) (hc : capSubset c.req caps = true) :
    blPixelConverterResolve (c :: t) caps = some c.fn := by
  unfold blPixelConverterResolve
  rw [List.find?_cons_of_pos t
    (show (fun x : BLConvCandidate => capSubset x.req caps) c = true from hc)]
  rfl

theorem blPixelConverterResolve_cons_neg (caps : BLRuntimeCpuFeatures)
    (c : BLConvCandidate) (t : List BLConvCandidate) (hc : ¬capSubset c.req caps = true) :
    blPixelConverterResolve (c :: t) caps = blPixelConverterResolve t caps := by
  unfold blPixelConverterResolve
  rw [List.find?_cons_of_neg t
    (show ¬((fun x : BLConvCandidate => capSubset x.req caps) c = true) from hc)]

/-- Resolution returns the first matching candidate: the list splits into
a rejected head segment, the chosen candidate, and the remainder. -/
theorem blPixelConverterResolve_first (caps : BLRuntimeCpuFeatures)
    (l : List BLConvCandidate) (f : BLConvFuncId)
    (hres : blPixelConverterResolve l caps = some f) :
    ∃ l₁ c l₂, l = l₁ ++ c :: l₂ ∧ c.fn = f ∧ capSubset c.req caps = true ∧
      ∀ c' ∈ l₁, capSubset c'.req caps = false := by
  induction l with
  | nil => simp [blPixelConverterResolve] at hres
  | cons c t ih =>
    by_cases hc : capSubset c.req caps = true
    · refine ⟨[], c, t, rfl, ?_, hc, by simp⟩
      rw [blPixelConverterResolve_cons_pos caps c t hc] at hres
      exact Option.some.inj hres
    · rw [blPixelConverterResolve_cons_neg caps c t hc] at hres
      obtain ⟨l₁, c', l₂, ht, hfn, hcap, hrej⟩ := ih hres
      refine ⟨c :: l₁, c', l₂, by rw [ht]; rfl, hfn, hcap, ?_⟩
      intro x hx
      rcases List.mem_cons.mp hx with hx | hx
      · subst hx
        simpa using hc
      · exact hrej x hx

/-- A list whose last candidate requires no capabilities always resolves. -/
theorem blPixelConverterResolve_isSome_of_last (caps : BLRuntimeCpuFeatures) :
    ∀ (l : List BLConvCandidate) (c : BLConvCandidate),
      l.getLast? = some c → c.req = noCaps →
      (blPixelConverterResolve l caps).isSome = true := by
  intro l
  induction l with
  | nil =>
    intro c hlast
    simp at hlast
  | cons a t ih =>
    intro c hlast hreq
    cases t with
    | nil =>
      have hac : a = c := by simpa using hlast
      rw [blPixelConverterResolve_cons_pos caps a []
        (by rw [hac, hreq]; exact capSubset_noCaps caps)]
      rfl
    | cons b t2 =>
      by_cases hc : capSubset a.req caps = true
      · rw [blPixelConverterResolve_cons_pos caps a (b :: t2) hc]
        rfl
      · rw [blPixelConverterResolve_cons_neg caps a (b :: t2) hc]
        exact ih c (by simpa [List.getLast?_cons_cons] using hlast) hreq

/-- C4 counterexample: the byte shuffle candidate list from the source
declarations contains only SSSE3 and AVX2 kernels; its last candidate does
not have the empty requirement, and resolution against the empty
capability set yields no function pointer. -/
theorem blPixelConverterResolve_shufb_counterexample :
    blPixelConverterResolve copyShufb8888Funcs noCaps = none ∧
    copyShufb8888Funcs.getLast? = some ⟨ssse3Caps, .copy_shufb_8888_ssse3⟩ ∧
    ¬(ssse3Caps = noCaps) := by
  refine ⟨rfl, rfl, by decide⟩

/-- C4 amended: resolution picks the first candidate of the ordered list
whose capability requirement is a subset of the detected capabilities,
and a strategy whose list ends in a baseline candidate with the empty
requirement always yields a function pointer - which holds for the copy
and copy-or lists, but not for the byte shuffle list, whose candidates
all require at least SSSE3. -/
theorem blPixelConverterResolve_spec (caps : BLRuntimeCpuFeatures) :
    (∀ (l : List BLConvCandidate) (f : BLConvFuncId),
      blPixelConverterResolve l caps = some f →
        ∃ l₁ c l₂, l = l₁ ++ c :: l₂ ∧ c.fn = f ∧ capSubset c.req caps = true ∧
          ∀ c' ∈ l₁, capSubset c'.req caps = false) ∧
    (∀ (l : List BLConvCandidate) (c : BLConvCandidate),
      l.getLast? = some c → c.req = noCaps →
      (blPixelConverterResolve l caps).isSome = true) ∧
    (blPixelConverterResolve copyFuncs caps).isSome = true ∧
    (blPixelConverterResolve copyOr8888Funcs caps).isSome = true := by
  refine ⟨blPixelConverterResolve_first caps, blPixelConverterResolve_isSome_of_last caps, ?_, ?_⟩
  · exact blPixelConverterResolve_isSome_of_last caps copyFuncs ⟨noCaps, .copy⟩ rfl rfl
  · exact blPixelConverterResolve_isSome_of_last caps copyOr8888Funcs ⟨noCaps, .copy_or_8888⟩ rfl rfl

theorem strategyFlags_decomp (σ : BLConvStrategy) (o : Nat) (ho : o = 0 ∨ o = 2) :
    (strategyBaseFlags σ ||| o) &&& BL_PIXEL_CONVERTER_INTERNAL_FLAG_INITIALIZED =
      BL_PIXEL_CONVERTER_INTERNAL_FLAG_INITIALIZED ∧
    (strategyBaseFlags σ ||| o) =
      strategyBaseFlags σ |||
        ((strategyBaseFlags σ ||| o) &&& BL_PIXEL_CONVERTER_INTERNAL_FLAG_OPTIMIZED) ∧
    (((strategyBaseFlags σ ||| o) &&& BL_PIXEL_CONVERTER_INTERNAL_FLAG_RAW_COPY ≠ 0) ↔
      isRawCopyStrategy σ = true) ∧
    (((strategyBaseFlags σ ||| o) &&& BL_PIXEL_CONVERTER_INTERNAL_FLAG_MULTI_STEP ≠ 0) ↔
      isMultiStepStrategy σ = true) ∧
    (((strategyBaseFlags σ ||| o) &&& BL_PIXEL_CONVERTER_INTERNAL_FLAG_DYNAMIC_DATA ≠ 0) ↔
      isDynamicDataStrategy σ = true) := by
  rcases ho with rfl | rfl <;>
    cases σ <;>
    try (simp only [strategyBaseFlags, isRawCopyStrategy, isMultiStepStrategy,
      isDynamicDataStrategy]; decide)
  all_goals rename_i st
  all_goals cases st <;>
    (simp only [strategyBaseFlags, isRawCopyStrategy, isMultiStepStrategy,
      isDynamicDataStrategy]; decide)

/-- C3: whenever Init succeeds, the produced handle has a non-null kernel
pointer, carries the Initialized flag, and its flag byte is exactly the
combination implied by the selected strategy (plus possibly the diagnostic
Optimized bit): the RawCopy, MultiStep and DynamicData bits are set if and
only if the live strategy variant is, respectively, rawCopy, multiStep,
or an indexedLookup with a heap table - exactly one variant of the
strategy data is live and the flags encode it. -/
theorem blPixelConverterInitInternal_ok (caps : BLRuntimeCpuFeatures)
    (d s : BLFormatInfo) (h : BLPixelConverterData)
    (hok : blPixelConverterInitInternal caps d s = .ok h) :
    h.convertFunc.isSome = true ∧
    h.internalFlags &&& BL_PIXEL_CONVERTER_INTERNAL_FLAG_INITIALIZED =
      BL_PIXEL_CONVERTER_INTERNAL_FLAG_INITIALIZED ∧
    h.internalFlags =
      strategyBaseFlags h.strategy |||
        (h.internalFlags &&& BL_PIXEL_CONVERTER_INTERNAL_FLAG_OPTIMIZED) ∧
    ((h.internalFlags &&& BL_PIXEL_CONVERTER_INTERNAL_FLAG_RAW_COPY ≠ 0) ↔
      isRawCopyStrategy h.strategy = true) ∧
    ((h.internalFlags &&& BL_PIXEL_CONVERTER_INTERNAL_FLAG_MULTI_STEP ≠ 0) ↔
      isMultiStepStrategy h.strategy = true) ∧
    ((h.internalFlags &&& BL_PIXEL_CONVERTER_INTERNAL_FLAG_DYNAMIC_DATA ≠ 0) ↔
      isDynamicDataStrategy h.strategy = true) := by
  unfold blPixelConverterInitInternal at hok
  split at hok
  · split at hok
    · exact Except.noConfusion hok
    · rename_i strat hsel
      split at hok
      · exact Except.noConfusion hok
      · rename_i c hfind
        injection hok with hok
        subst hok
        have hd := strategyFlags_decomp strat
          (if c.req = noCaps then 0 else BL_PIXEL_CONVERTER_INTERNAL_FLAG_OPTIMIZED)
          (by split <;> [exact Or.inl rfl; exact Or.inr rfl])
        exact ⟨rfl, hd.1, hd.2.1, hd.2.2.1, hd.2.2.2.1, hd.2.2.2.2⟩
  · exact Except.noConfusion hok

theorem blPixelConverterInitInternal_ok_witness :
    blPixelConverterInitInternal noCaps prgb32Fmt prgb32Fmt =
      .ok ⟨some .copy, 5, .rawCopy 4⟩ ∧
    (⟨some BLConvFuncId.copy, 5, .rawCopy 4⟩ : BLPixelConverterData).convertFunc.isSome = true :=
  ⟨rfl,
   (blPixelConverterInitInternal_ok noCaps prgb32Fmt prgb32Fmt
     ⟨some .copy, 5, .rawCopy 4⟩ rfl).1⟩

theorem blRefRun_stuck (t : List BLRefOp) (st1 st : BLRefState)
    (h0 : st1.refCount = 0) (hrun : blRefRun t st1 = some st) :
    t = [] ∧ st = st1 := by
  cases t with
  | nil =>
    refine ⟨rfl, ?_⟩
    simp only [blRefRun] at hrun
    exact (Option.some.inj hrun).symm
  | cons op t2 =>
    exfalso
    cases op <;> simp [blRefRun, blRefStep, h0] at hrun

theorem blRefRun_invariant :
    ∀ (ops : List BLRefOp) (st0 st : BLRefState), 0 < st0.refCount →
      blRefRun ops st0 = some st →
      st.refCount + countResets ops = st0.refCount + countCopies ops ∧
      st.freeCount = st0.freeCount + (if st.refCount = 0 then 1 else 0) := by
  intro ops
  induction ops with
  | nil =>
    intro st0 st hpos hrun
    simp only [blRefRun] at hrun
    obtain rfl := Option.some.inj hrun
    constructor
    · rfl
    · rw [if_neg (by omega)]
      omega

  | cons op t ih =>
    intro st0 st hpos hrun
    cases op with
    | copy =>
      simp only [blRefRun, blRefStep, if_neg (by omega : ¬st0.refCount = 0)] at hrun
      have hi := ih ⟨st0.refCount + 1, st0.freeCount⟩ st (by simp) hrun
      simp only [countCopies, countResets] at *
      constructor
      · omega
      · exact hi.2
    | reset =>
      simp only [blRefRun, blRefStep, if_neg (by omega : ¬st0.refCount = 0)] at hrun
      by_cases h1 : st0.refCount = 1
      · rw [h1] at hrun
        simp only [if_pos rfl] at hrun
        obtain ⟨rfl, rfl⟩ := blRefRun_stuck t ⟨1 - 1, st0.freeCount + 1⟩ st rfl hrun
        simp only [countCopies, countResets]
        constructor
        · omega
        · simp
      · rw [if_neg h1] at hrun
        have hi := ih ⟨st0.refCount - 1, st0.freeCount⟩ st (by simp; omega) hrun
        simp only [countCopies, countResets] at *
        constructor
        · omega
        · exact hi.2

/-- C5: running any valid sequence of Copy and Reset calls on handles
derived from one dynamic-table Init (initial reference count one, each
call requiring a live reference), the final count plus the number of
Resets equals one plus the number of Copies; the table is freed exactly
once, precisely by the Reset that brings the count to zero, and never
before; in particular when Copies N and Resets M satisfy N ≥ M, exactly
N - M + 1 live references remain and the table has not been freed. -/
theorem blDynamicTable_refcount (ops : List BLRefOp) (st : BLRefState)
    (hrun : blRefRun ops ⟨1, 0⟩ = some st) :
    st.refCount + countResets ops = 1 + countCopies ops ∧
    st.freeCount = (if st.refCount = 0 then 1 else 0) ∧
    (countResets ops ≤ countCopies ops →
      st.refCount = countCopies ops - countResets ops + 1 ∧ st.freeCount = 0) := by
  have hinv := blRefRun_invariant ops ⟨1, 0⟩ st (by decide) hrun
  have h1 : st.refCount + countResets ops = 1 + countCopies ops := hinv.1
  have h2 : st.freeCount = 0 + (if st.refCount = 0 then 1 else 0) := hinv.2
  refine ⟨h1, by simpa using h2, ?_⟩
  intro hNM
  have hne : ¬st.refCount = 0 := by omega
  rw [if_neg hne] at h2
  constructor
  · omega
  · simpa using h2

theorem blDynamicTable_refcount_witness :
    (⟨2, 0⟩ : BLRefState).refCount + countResets [BLRefOp.copy, BLRefOp.copy, BLRefOp.reset] =
      1 + countCopies [BLRefOp.copy, BLRefOp.copy, BLRefOp.reset] ∧
    (⟨2, 0⟩ : BLRefState).freeCount =
      (if (⟨2, 0⟩ : BLRefState).refCount = 0 then 1 else 0) ∧
    (countResets [BLRefOp.copy, BLRefOp.copy, BLRefOp.reset] ≤
        countCopies [BLRefOp.copy, BLRefOp.copy, BLRefOp.reset] →
      (⟨2, 0⟩ : BLRefState).refCount =
        countCopies [BLRefOp.copy, BLRefOp.copy, BLRefOp.reset] -
          countResets [BLRefOp.copy, BLRefOp.copy, BLRefOp.reset] + 1 ∧
      (⟨2, 0⟩ : BLRefState).freeCount = 0) :=
  blDynamicTable_refcount [.copy, .copy, .reset] ⟨2, 0⟩ rfl

/-- C9: Reset is idempotent - a second Reset leaves exactly the state of
the first (the uninitialized sentinel with null function pointer and
cleared flags) and performs no reference-count decrement and no
deallocation (the heap state is untouched by the second call). -/
theorem blPixelConverterReset_idempotent (wrld : BLResetWorld) :
    blPixelConverterReset (blPixelConverterReset wrld) = blPixelConverterReset wrld ∧
    (blPixelConverterReset wrld).data.convertFunc = none ∧
    (blPixelConverterReset wrld).data.internalFlags = 0 ∧
    (blPixelConverterReset (blPixelConverterReset wrld)).heap =
      (blPixelConverterReset wrld).heap := by
  have hcond : ¬(blPixelConverterSentinelData.internalFlags &&&
      BL_PIXEL_CONVERTER_INTERNAL_FLAG_DYNAMIC_DATA ≠ 0) := by decide
  refine ⟨?_, rfl, rfl, ?_⟩
  · show blPixelConverterReset
      { data := blPixelConverterSentinelData,
        heap := if wrld.data.internalFlags &&&
            BL_PIXEL_CONVERTER_INTERNAL_FLAG_DYNAMIC_DATA ≠ 0 then
          blRefRelease wrld.heap else wrld.heap } = _
    unfold blPixelConverterReset
    rw [if_neg hcond]
  · show (blPixelConverterReset
      { data := blPixelConverterSentinelData,
        heap := if wrld.data.internalFlags &&&
            BL_PIXEL_CONVERTER_INTERNAL_FLAG_DYNAMIC_DATA ≠ 0 then
          blRefRelease wrld.heap else wrld.heap }).heap = _
    unfold blPixelConverterReset
    rw [if_neg hcond]

/-- C6: for a destination of 1, 2 or 4 bytes per pixel, the IndexedLookup
table has paletteSize entries each sized to the destination width, is
stored embedded exactly when its total size is at most 64 bytes -
equivalently when paletteSize fits the embedded capacity of 64, 32 or 16
entries respectively (capacity times entry width is always 64 bytes) -
and is otherwise heap-allocated with a shared reference count of one. -/
theorem blIndexedLookup_table_sizing (ps bpp : Nat)
    (hbpp : bpp = 1 ∨ bpp = 2 ∨ bpp = 4) (hps1 : 0 < ps) (hps2 : ps ≤ 256) :
    (blIndexedStorageFor ps bpp = .embedded (blIndexedEmbeddedCapacity bpp) ↔
      ps * bpp ≤ 64) ∧
    blIndexedEmbeddedCapacity bpp * bpp = 64 ∧
    (ps * bpp ≤ 64 ↔ ps ≤ blIndexedEmbeddedCapacity bpp) ∧
    (¬ps * bpp ≤ 64 → blIndexedStorageFor ps bpp = .dynamic 1) ∧
    (∀ (palette : List Nat) (conv : Nat → Nat), palette.length = ps →
      (blIndexedTable palette conv).length = ps) := by
  have hC : blIndexedStorageFor ps bpp = .embedded (blIndexedEmbeddedCapacity bpp) ↔
      ps * bpp ≤ 64 := by
    unfold blIndexedStorageFor
    split_ifs with hc
    · exact iff_of_true rfl hc
    · exact iff_of_false (by simp) hc
  have hA : blIndexedEmbeddedCapacity bpp * bpp = 64 := by
    rcases hbpp with rfl | rfl | rfl <;> decide
  have hB : ps * bpp ≤ 64 ↔ ps ≤ blIndexedEmbeddedCapacity bpp := by
    rcases hbpp with rfl | rfl | rfl <;>
      (simp only [blIndexedEmbeddedCapacity]; constructor <;> (intro hx; omega))
  refine ⟨hC, hA, hB, ?_, ?_⟩
  · intro hc
    unfold blIndexedStorageFor
    rw [if_neg hc]
  · intro palette conv hlen
    simp [blIndexedTable, hlen]

theorem blIndexedLookup_table_sizing_witness :
    blIndexedStorageFor 4 4 = .embedded (blIndexedEmbeddedCapacity 4) ∧
    blIndexedEmbeddedCapacity 4 * 4 = 64 ∧ (4 : Nat) ≤ blIndexedEmbeddedCapacity 4 :=
  ⟨(blIndexedLookup_table_sizing 4 4 (by decide) (by decide) (by decide)).1.mpr (by decide),
   (blIndexedLookup_table_sizing 4 4 (by decide) (by decide) (by decide)).2.1,
   (blIndexedLookup_table_sizing 4 4 (by decide) (by decide) (by decide)).2.2.1.mp (by decide)⟩

theorem blMultiStepChunkWidths_sum (pc : Nat) (hpc : 0 < pc) :
    ∀ w, (blMultiStepChunkWidths pc w).sum = w := by
  intro w
  induction w using Nat.strong_induction_on with
  | _ w ih =>
    unfold blMultiStepChunkWidths
    split_ifs with h0 h1 h2
    · simp [h0]
    · simp
    · omega
    · simp only [List.sum_cons]
      rw [ih (w - pc) (by omega)]
      omega

theorem blMultiStepChunkWidths_le (pc : Nat) :
    ∀ w, ∀ c ∈ blMultiStepChunkWidths pc w, c ≤ pc := by
  intro w
  induction w using Nat.strong_induction_on with
  | _ w ih =>
    intro c hc
    unfold blMultiStepChunkWidths at hc
    split_ifs at hc with h0 h1 h2
    · simp at hc
    · simp at hc
      omega
    · simp at hc
    · rcases List.mem_cons.mp hc with hc | hc
      · omega
      · exact ih (w - pc) (by omega) c hc

/-- C8: a MultiStep converter owns the two nested handles, processes any
width in chunks that exactly cover it, every chunk needs at most the
fixed 3072-byte intermediate buffer (a compile-time constant, independent
of image width and height), so intermediate storage never scales with
image dimensions. -/
theorem blMultiStep_bounded_intermediate (f s : BLPixelConverterData) (w ibpp : Nat)
    (hbpp : 0 < ibpp) (hle : ibpp ≤ BL_PIXEL_CONVERTER_MULTISTEP_BUFFER_SIZE) :
    (blPixelConverterInitMultiStepCtx f s).first = f ∧
    (blPixelConverterInitMultiStepCtx f s).second = s ∧
    (blMultiStepChunkWidths (blMultiStepPixelCount ibpp) w).sum = w ∧
    (∀ c ∈ blMultiStepChunkWidths (blMultiStepPixelCount ibpp) w,
      c * ibpp ≤ BL_PIXEL_CONVERTER_MULTISTEP_BUFFER_SIZE) ∧
    BL_PIXEL_CONVERTER_MULTISTEP_BUFFER_SIZE = 3072 := by
  have hpc : 0 < blMultiStepPixelCount ibpp := Nat.div_pos hle hbpp
  refine ⟨rfl, rfl, blMultiStepChunkWidths_sum _ hpc w, ?_, rfl⟩
  intro c hc
  have h1 : c ≤ blMultiStepPixelCount ibpp := blMultiStepChunkWidths_le _ w c hc
  calc c * ibpp ≤ blMultiStepPixelCount ibpp * ibpp :=
        Nat.mul_le_mul_right ibpp h1
    _ ≤ BL_PIXEL_CONVERTER_MULTISTEP_BUFFER_SIZE := Nat.div_mul_le_self _ ibpp

theorem blMultiStep_bounded_intermediate_witness :
    (blMultiStepChunkWidths (blMultiStepPixelCount 4) 1000).sum = 1000 ∧
    BL_PIXEL_CONVERTER_MULTISTEP_BUFFER_SIZE = 3072 :=
  ⟨(blMultiStep_bounded_intermediate blPixelConverterSentinelData
      blPixelConverterSentinelData 1000 4 (by decide) (by decide)).2.2.1,
   (blMultiStep_bounded_intermediate blPixelConverterSentinelData
      blPixelConverterSentinelData 1000 4 (by decide) (by decide)).2.2.2.2⟩

end Blend2D
